import Mathlib

/-!
Verification of the calibration-wizard subsystem (Spoolman client,
`src/client/src/pages/calibration/`).

The development shallowly embeds the parts of the TypeScript source that the
claims are about:

* the step registry `STEP_CONFIGS` (`stepConfig.ts`): step types, output /
  recommended keys and the four `autoCompute` formulas;
* the reactive auto-compute effects and the VFA artifact-speed effect shared
  by `CalibrationWizard` (StepContent) and `StepResultDrawer`;
* the flow-rate pass calculators (`yoloResult`, `pass1Result`, `pass2Result`);
* the wizard orchestrator (`CalibrationWizard`): open/resume, navigation,
  save, skip, skip-as-not-applicable, close — as a step function on an
  explicit state;
* the standalone drawer save (`StepResultDrawer.onFinish`);
* the step classification of `CalibrationSection`'s `StepList` and the
  `RecommendedSummary` aggregator.

JavaScript numbers are embedded as exact rationals (`ℚ`); `x.toFixed(f)`
followed by `parseFloat` is embedded as rounding to `f` decimal places with
ties toward `+∞`, which is the ECMAScript `toFixed` tie rule on exact values.
Mapping values (`Record<string, unknown>`) are embedded by the inductive
`JVal`, with `undefinedV` for absent keys; mappings are association lists observed
only through key lookup. Asynchronous persistence is embedded synchronously on
its success path: a failed request leaves every piece of state unchanged, so
the success path carries all state transitions.
-/

namespace Calib

/-- A JavaScript value as stored in the `inputs` / `outputs` /
`selected_values` mappings of this subsystem: `undefined`, `null`, `NaN`,
a (non-NaN) number, a boolean (the `_skipped` sentinel), or a string
(select-option values such as `"direct_drive"`). -/
inductive JVal where
  | undefinedV : JVal
  | null : JVal
  | nan : JVal
  | num : ℚ → JVal
  | bool : Bool → JVal
  | str : String → JVal
deriving DecidableEq, Repr

/-- A JS object used as a field mapping, observed through key lookup. -/
abbrev JMap := List (String × JVal)

/-- Reading a key of a JS object: `undefined` when the key is absent. -/
def lookupJ (m : JMap) (k : String) : JVal :=
  match m.find? (fun p => p.1 == k) with
  | some p => p.2
  | none => .undefinedV

/-- `k in m`: whether the object has the key. -/
def hasKeyJ (m : JMap) (k : String) : Bool :=
  (m.find? (fun p => p.1 == k)).isSome

/-- Spread merge `{ ...a, ...b }`: keys of `b` override keys of `a`. -/
def jmerge (a b : JMap) : JMap :=
  a.filter (fun p => !hasKeyJ b p.1) ++ b

/-- `Object.keys(m).length > 0` (the mappings this subsystem builds have no
duplicate keys). -/
def jNonEmpty (m : JMap) : Bool := !m.isEmpty

/-- Embeds the guard `x !== null && !isNaN(x)` together with the subsequent
use of `x` as a number: yields the numeric payload exactly when the guard
passes. Over the values an `InputNumber` control can hold in the guarded
keys — a number, `null`, unset (`undefined`) or `NaN` — the guard passes
exactly on non-NaN numbers (`isNaN(undefined)` is `true` in JS, so unset
fields fail it). -/
def numGuard : JVal → Option ℚ
  | .num q => some q
  | _ => none

/-- `parseFloat(x.toFixed(f))`: round to `f` decimal places, ties toward
`+∞` (the ECMAScript `toFixed` rule "pick the larger n"). -/
def roundTo (f : ℕ) (x : ℚ) : ℚ :=
  ((round (x * 10 ^ f) : ℤ) : ℚ) / 10 ^ f

/-- The nine canonical calibration step types (`model.ts`). -/
inductive StepType where
  | temperature | volumetric_speed | pressure_advance | flow_rate
  | retraction | tolerance | cornering | input_shaping | vfa
deriving DecidableEq, Repr

/-- The canonical wizard step order (`wizardCopy.ts`, `WIZARD_STEP_ORDER`). -/
def WIZARD_STEP_ORDER : List StepType :=
  [.temperature, .volumetric_speed, .pressure_advance, .flow_rate,
   .retraction, .tolerance, .cornering, .input_shaping, .vfa]

/-- Output-field keys per step type (`STEP_CONFIGS[*].outputFields[*].key`).
These are exactly the form paths registered under the `result` name of the
wizard / drawer forms. -/
def outputKeys : StepType → List String
  | .temperature => ["temperature"]
  | .volumetric_speed => ["max_volumetric_speed"]
  | .pressure_advance => ["pressure_advance"]
  | .flow_rate => ["flow_ratio"]
  | .retraction => ["retraction_length"]
  | .tolerance => ["tolerance_offset"]
  | .cornering => ["cornering_value"]
  | .input_shaping => ["shaper_type_x", "frequency_x", "shaper_type_y", "frequency_y"]
  | .vfa => ["min_avoidance_speed", "max_avoidance_speed"]

/-- Recommended keys per step type (`STEP_CONFIGS[*].recommendedKeys`). -/
def recommendedKeys : StepType → List String
  | .temperature => ["temperature"]
  | .volumetric_speed => ["max_volumetric_speed"]
  | .pressure_advance => ["pressure_advance"]
  | .flow_rate => ["flow_ratio"]
  | .retraction => ["retraction_length"]
  | .tolerance => ["tolerance_offset"]
  | .cornering => ["cornering_value"]
  | .input_shaping => ["shaper_type_x", "frequency_x", "shaper_type_y", "frequency_y"]
  | .vfa => ["min_avoidance_speed", "max_avoidance_speed"]

/-- `STEP_CONFIGS.volumetric_speed.autoCompute`:
`max_volumetric_speed = parseFloat((start + h * step).toFixed(2))` when
`start_speed`, `step_size`, `measured_height` all pass the numeric guard,
else the empty record. -/
def autoComputeVolumetricSpeed (inputs : JMap) : List (String × ℚ) :=
  match numGuard (lookupJ inputs "start_speed"),
        numGuard (lookupJ inputs "step_size"),
        numGuard (lookupJ inputs "measured_height") with
  | some start, some step, some h =>
      [("max_volumetric_speed", roundTo 2 (start + h * step))]
  | _, _, _ => []

/-- `STEP_CONFIGS.pressure_advance.autoCompute`:
`pressure_advance = parseFloat((a * b).toFixed(4))` from `pa_step_a` and
`measured_height_b`. -/
def autoComputePressureAdvance (inputs : JMap) : List (String × ℚ) :=
  match numGuard (lookupJ inputs "pa_step_a"),
        numGuard (lookupJ inputs "measured_height_b") with
  | some a, some b => [("pressure_advance", roundTo 4 (a * b))]
  | _, _ => []

/-- `STEP_CONFIGS.retraction.autoCompute`:
`retraction_length = parseFloat((start + h * factor).toFixed(5))`. -/
def autoComputeRetraction (inputs : JMap) : List (String × ℚ) :=
  match numGuard (lookupJ inputs "start_retract"),
        numGuard (lookupJ inputs "measured_height"),
        numGuard (lookupJ inputs "factor") with
  | some start, some h, some factor =>
      [("retraction_length", roundTo 5 (start + h * factor))]
  | _, _, _ => []

/-- `STEP_CONFIGS.tolerance.autoCompute`:
`tolerance_offset = parseFloat((t - m).toFixed(3))`. -/
def autoComputeTolerance (inputs : JMap) : List (String × ℚ) :=
  match numGuard (lookupJ inputs "test_size"),
        numGuard (lookupJ inputs "measured_size") with
  | some t, some m => [("tolerance_offset", roundTo 3 (t - m))]
  | _, _ => []

/-- The optional `autoCompute` member of each step config: present for
exactly `volumetric_speed`, `pressure_advance`, `retraction`, `tolerance`. -/
def stepAutoCompute : StepType → Option (JMap → List (String × ℚ))
  | .volumetric_speed => some autoComputeVolumetricSpeed
  | .pressure_advance => some autoComputePressureAdvance
  | .retraction => some autoComputeRetraction
  | .tolerance => some autoComputeTolerance
  | _ => none

/-- The input keys a formula requires, as listed in the spec's formula
table (spec §4.1): the keys the corresponding `autoCompute` guards on. -/
def requiredInputKeys : StepType → List String
  | .volumetric_speed => ["start_speed", "step_size", "measured_height"]
  | .pressure_advance => ["pa_step_a", "measured_height_b"]
  | .retraction => ["start_retract", "measured_height", "factor"]
  | .tolerance => ["test_size", "measured_size"]
  | _ => []

/-- The pressure-advance test-method toggle (`paMethod` state). -/
inductive PaMethod where
  | tower | pattern
deriving DecidableEq, Repr

/-- The auto-compute effect shared verbatim by `StepContent`
(CalibrationWizard) and `StepResultDrawer`: leave the `result` mapping alone
when the step has no `autoCompute`, when the `inputs` form value is unset, or
when the step is `pressure_advance` in `pattern` mode; otherwise merge the
computed record into the current `result` when it is non-empty. -/
def autoComputeEffect (st : StepType) (pa : PaMethod) (inputs : Option JMap)
    (current : JMap) : JMap :=
  match stepAutoCompute st, inputs with
  | some ac, some iv =>
      if st = .pressure_advance ∧ pa = .pattern then current
      else
        let computed := ac iv
        if computed.isEmpty then current
        else jmerge current (computed.map fun p => (p.1, JVal.num p.2))
  | _, _ => current

/-- `Math.min(...xs)` over a non-empty list. -/
def minOf : List ℚ → ℚ
  | [] => 0
  | x :: xs => xs.foldl min x

/-- `Math.max(...xs)` over a non-empty list. -/
def maxOf : List ℚ → ℚ
  | [] => 0
  | x :: xs => xs.foldl max x

/-- The VFA effect shared by `StepContent` and `StepResultDrawer`: whenever
the artifact-speed list changes, write `min_avoidance_speed` /
`max_avoidance_speed` into the `result` mapping — both `null` when the list
is empty, else its min and max — merged over the current mapping. -/
def vfaEffect (speeds : List ℚ) (current : JMap) : JMap :=
  if speeds.isEmpty then
    jmerge current [("min_avoidance_speed", .null), ("max_avoidance_speed", .null)]
  else
    jmerge current
      [("min_avoidance_speed", .num (minOf speeds)),
       ("max_avoidance_speed", .num (maxOf speeds))]

/-- Insert into an ascending list, keeping it ascending. -/
def insertAsc (x : ℚ) : List ℚ → List ℚ
  | [] => [x]
  | y :: ys => if x ≤ y then x :: y :: ys else y :: insertAsc x ys

/-- Ascending numeric sort, embedding `.sort((a, b) => a - b)`. The sorted
arrangement of rationals is unique, so the sorting algorithm is
immaterial. -/
def sortAsc : List ℚ → List ℚ
  | [] => []
  | x :: xs => insertAsc x (sortAsc xs)

/-- `addArtifactSpeed`: ignore `null` / `NaN`, else append and re-sort
ascending (`[...prev, v].sort((a, b) => a - b)`). -/
def addArtifactSpeed (v : JVal) (speeds : List ℚ) : List ℚ :=
  match numGuard v with
  | some q => sortAsc (speeds ++ [q])
  | none => speeds

/-- `removeArtifactSpeed`: delete by position
(`prev.filter((_, i) => i !== idx)`). -/
def removeArtifactSpeed (idx : ℕ) (speeds : List ℚ) : List ℚ :=
  (speeds.enum.filter (fun p => p.1 ≠ idx)).map (·.2)

/-- A mutation of the VFA artifact-speed list. -/
inductive VfaMutation where
  | add : JVal → VfaMutation
  | remove : ℕ → VfaMutation
deriving DecidableEq, Repr

/-- Apply one artifact-speed mutation. -/
def applyVfaMutation : VfaMutation → List ℚ → List ℚ
  | .add v, speeds => addArtifactSpeed v speeds
  | .remove idx, speeds => removeArtifactSpeed idx speeds

/-- The flow-rate YOLO result (`yoloResult` in `StepContent` and
`StepResultDrawer`): `parseFloat((old + modifier).toFixed(5))` when both
pass the numeric guard, else `null`. -/
def yoloResult (old modifier : JVal) : Option ℚ :=
  match numGuard old, numGuard modifier with
  | some o, some m => some (roundTo 5 (o + m))
  | _, _ => none

/-- A flow-rate Legacy pass result (`pass1Result` / `pass2Result` in
`StepContent` and `StepResultDrawer`):
`parseFloat(((ratio * (100 + modifier)) / 100).toFixed(5))` when both pass
the numeric guard, else `null`. -/
def legacyPassResult (ratio modifier : JVal) : Option ℚ :=
  match numGuard ratio, numGuard modifier with
  | some r, some m => some (roundTo 5 (r * (100 + m) / 100))
  | _, _ => none

section DataModel

/-- A persisted Step Result (`ICalibrationStepResult`). `Option` is `null` /
absent; `recorded_at` is not observed by any claim and is omitted. -/
structure StepResult where
  id : ℕ
  step_type : StepType
  inputs : Option JMap
  outputs : Option JMap
  selected_values : Option JMap
  notes : Option String
  confidence : Option String
deriving DecidableEq, Repr

/-- Session status (`CalibrationStatus`). -/
inductive CalStatus where
  | planned | in_progress | complete | archived
deriving DecidableEq, Repr

/-- A persisted Calibration Session (`ICalibrationSession`), restricted to
the attributes the claims observe. -/
structure Session where
  id : ℕ
  filament_id : ℕ
  status : CalStatus
  steps : List StepResult
deriving DecidableEq, Repr

/-- `step.selected_values && Object.keys(step.selected_values).length > 0`
(`null` and `undefined` are falsy; `{}` is truthy with zero keys). -/
def nonEmptySel (r : StepResult) : Bool :=
  match r.selected_values with
  | some m => jNonEmpty m
  | none => false

/-- `step.outputs?._skipped === true` (StepList's skip-sentinel check). -/
def isSkippedStep (r : StepResult) : Bool :=
  lookupJ (r.outputs.getD []) "_skipped" == JVal.bool true

/-- StepList's `hasRecommended`: not skipped and non-empty selected values. -/
def hasRecommendedStep (r : StepResult) : Bool :=
  !isSkippedStep r && nonEmptySel r

/-- StepList's `isIncomplete`: neither skipped nor has recommended values. -/
def isIncompleteStep (r : StepResult) : Bool :=
  !isSkippedStep r && !hasRecommendedStep r

/-- The sentinel mapping `{ _skipped: true }` written by
`handleSaveAsSkipped`. -/
def sentinelMap : JMap := [("_skipped", JVal.bool true)]

/-- "selected_values is absent/empty": `null`/`undefined` or `{}`. -/
def emptySel (o : Option JMap) : Prop := o = none ∨ o = some []

end DataModel

section Aggregator

/-- One assignment `latestByType[step.step_type] = step` of
`RecommendedSummary`'s loop, guarded by a non-empty `selected_values`. The
JS object is observed only through per-type lookups and is embedded as a
function. -/
def updateLatest (acc : StepType → Option StepResult) (r : StepResult) :
    StepType → Option StepResult :=
  if nonEmptySel r then fun st => if st = r.step_type then some r else acc st
  else acc

/-- `RecommendedSummary`'s `latestByType`: iterate `[...sessions].reverse()`
(oldest session first), then each session's steps in order, keeping the last
writer per step type. -/
def latestByType (sessions : List Session) : StepType → Option StepResult :=
  ((sessions.reverse.map (fun s => s.steps)).flatten).foldl updateLatest (fun _ => none)

/-- Modelled from the spec's words (§4.5): "for each step type, find the
most recently created Step Result across all sessions (most-recent session
first, most-recent step within iteration) that has a non-empty
`selected_values` mapping" — i.e. scan the steps newest-first (the reverse
of the code's oldest-first iteration order) and take the first match. -/
def specLatestStep (sessions : List Session) (st : StepType) : Option StepResult :=
  ((sessions.reverse.map (fun s => s.steps)).flatten).reverse.find?
    (fun r => r.step_type == st && nonEmptySel r)

end Aggregator

section Wizard

/-- The antd form store of the wizard / drawer forms, restricted to the
paths this subsystem uses: the `inputs` and `result` objects, `notes` and
`confidence`. `none` is an unset path (`undefined`). -/
structure FormState where
  inputs : Option JMap
  result : Option JMap
  notes : Option String
  confidence : Option String
deriving DecidableEq, Repr

/-- `form.resetFields()`: every path unset. -/
def emptyForm : FormState := ⟨none, none, none, none⟩

/-- The in-memory per-step-type cache `savedValues` (partial record). -/
abbrev SavedValues := List (StepType × FormState)

/-- Look up a step type in the cache. -/
def svLookup (sv : SavedValues) (st : StepType) : Option FormState :=
  (sv.find? (fun p => p.1 == st)).map (fun p => p.2)

/-- `savedValues.current[type] = v` (overwrite or append). -/
def svSet (sv : SavedValues) (st : StepType) (v : FormState) : SavedValues :=
  if (sv.find? (fun p => p.1 == st)).isSome then
    sv.map (fun p => if p.1 = st then (st, v) else p)
  else sv ++ [(st, v)]

/-- The state of one open `CalibrationWizard` together with the persisted
session it mutates. `nextId` stands in for the backend's id assignment for
newly created steps. -/
structure WizardState where
  currentIdx : ℕ
  doneTypes : List StepType
  savedValues : SavedValues
  form : FormState
  session : Session
  nextId : ℕ
deriving DecidableEq, Repr

/-- The cache entry seeded from a persisted step on open:
`{ inputs: step.inputs ?? {}, result: step.selected_values ?? step.outputs
?? {}, notes, confidence }`. -/
def seedFromStep (r : StepResult) : FormState :=
  { inputs := some (r.inputs.getD [])
    result := some ((r.selected_values).getD ((r.outputs).getD []))
    notes := r.notes
    confidence := r.confidence }

/-- The done-set recomputed from the session's persisted steps:
`new Set(session.steps.map((s) => s.step_type))` (embedded as a list
observed through membership). -/
def doneTypesOf (session : Session) : List StepType :=
  session.steps.map (fun r => r.step_type)

/-- `Array.prototype.findIndex` embedded with `none` for `-1`: the index of
the first element satisfying the predicate. -/
def findIndexD {α : Type} (p : α → Bool) : List α → Option ℕ
  | [] => none
  | x :: xs => if p x then some 0 else (findIndexD p xs).map (· + 1)

/-- The wizard's open/reset effect: recompute the done-set, seed the cache
from the persisted steps (later steps of the same type overwrite earlier
ones), jump to the first step type in canonical order not yet done (index 0
when all are done: `findIndex` returns `-1`), reset the form and restore the
cache entry of the start step when present. -/
def wizardOpen (session : Session) (nextId : ℕ) : WizardState :=
  let done := doneTypesOf session
  let sv : SavedValues :=
    session.steps.foldl (fun acc r => svSet acc r.step_type (seedFromStep r)) []
  let firstPending := findIndexD (fun st => !done.contains st) WIZARD_STEP_ORDER
  let startIdx := firstPending.getD 0
  let startType := WIZARD_STEP_ORDER.getD startIdx .temperature
  { currentIdx := startIdx
    doneTypes := done
    savedValues := sv
    form := (svLookup sv startType).getD emptyForm
    session := session
    nextId := nextId }

/-- The step type of the active wizard step
(`WIZARD_STEP_ORDER[currentIdx]`). -/
def currentStepType (s : WizardState) : StepType :=
  WIZARD_STEP_ORDER.getD s.currentIdx .temperature

/-- The sidebar's per-entry done check:
`doneTypes.current.has(stepType)`. -/
def sidebarIsDone (s : WizardState) (st : StepType) : Bool :=
  s.doneTypes.contains st

/-- `isLast`: the active step is the last of the nine. -/
def isLast (s : WizardState) : Prop := s.currentIdx = WIZARD_STEP_ORDER.length - 1

instance (s : WizardState) : Decidable (isLast s) := by
  unfold isLast; infer_instance

/-- `navigateTo(newIdx)`: snapshot the form into the cache for the step
being left, reset the form, restore the destination's cache entry when
present, set the index. The sidebar / Back / Skip only ever pass indices
inside the step order; out-of-range indices leave the state unchanged. -/
def navigateTo (s : WizardState) (newIdx : ℕ) : WizardState :=
  if newIdx < WIZARD_STEP_ORDER.length then
    let sv := svSet s.savedValues (currentStepType s) s.form
    let nextType := WIZARD_STEP_ORDER.getD newIdx .temperature
    { s with
        savedValues := sv
        form := (svLookup sv nextType).getD emptyForm
        currentIdx := newIdx }
  else s

/-- `saveCurrentStep` (success path): persist the active step's form values
as a new Step Result with `outputs` and `selected_values` both set to the
form's `result` value (`values.result ?? null`), and mark the step type
done. -/
def saveCurrentStep (s : WizardState) : WizardState :=
  let newStep : StepResult :=
    { id := s.nextId
      step_type := currentStepType s
      inputs := s.form.inputs
      outputs := s.form.result
      selected_values := s.form.result
      notes := s.form.notes
      confidence := s.form.confidence }
  { s with
      session := { s.session with steps := s.session.steps ++ [newStep] }
      doneTypes := s.doneTypes.insert (currentStepType s)
      nextId := s.nextId + 1 }

/-- `markComplete` (success path): update the session status to
`complete`. -/
def markComplete (s : WizardState) : WizardState :=
  { s with session := { s.session with status := .complete } }

/-- A user-visible wizard action. `navigate` covers sidebar clicks and the
Back button; `skip` is the Skip button (with the skip-to-finish confirmation
accepted on the last step); `saveAsSkipped` is the
skip-as-deliberately-not-applicable button, which the UI renders only inside
the `input_shaping` advisory; `setForm` covers any user edit of the form;
`close` is closing the modal without saving. -/
inductive WAction where
  | navigate : ℕ → WAction
  | saveAndContinue : WAction
  | skip : WAction
  | saveAsSkipped : WAction
  | setForm : FormState → WAction
  | close : WAction
deriving DecidableEq, Repr

/-- The state transition of one wizard action (backend success path). -/
def wstep (s : WizardState) : WAction → WizardState
  | .navigate idx => navigateTo s idx
  | .saveAndContinue =>
      if isLast s then markComplete (saveCurrentStep s)
      else navigateTo (saveCurrentStep s) (s.currentIdx + 1)
  | .skip =>
      if isLast s then markComplete s
      else navigateTo s (s.currentIdx + 1)
  | .saveAsSkipped =>
      if currentStepType s = .input_shaping then
        let skipStep : StepResult :=
          { id := s.nextId
            step_type := currentStepType s
            inputs := none
            outputs := some sentinelMap
            selected_values := none
            notes := none
            confidence := none }
        let s1 :=
          { s with
              session := { s.session with steps := s.session.steps ++ [skipStep] }
              doneTypes := s.doneTypes.insert (currentStepType s)
              nextId := s.nextId + 1 }
        if isLast s1 then markComplete s1 else navigateTo s1 (s.currentIdx + 1)
      else s
  | .setForm f => { s with form := f }
  | .close => s

end Wizard

section Drawer

/-- `StepResultDrawer.onFinish`: build the create/update payload from the
submitted form values — `outputs` and `selected_values` both from
`values.result ?? null`. `id` is the updated step's id, or the backend's
fresh id on create. -/
def drawerOnFinish (id : ℕ) (st : StepType) (values : FormState) : StepResult :=
  { id := id
    step_type := st
    inputs := values.inputs
    outputs := values.result
    selected_values := values.result
    notes := values.notes
    confidence := values.confidence }

/-- The antd registration fact for the drawer form: `onFinish` receives only
values of registered fields, and the fields registered under `result` are
exactly the step type's output fields — so every key of the submitted
`result` object is one of the step type's output keys. -/
def resultKeysRegistered (st : StepType) (values : FormState) : Prop :=
  ∀ m, values.result = some m → ∀ p ∈ m, p.1 ∈ outputKeys st

end Drawer

section MapLemmas

theorem lookupJ_cons (p : String × JVal) (l : JMap) (k : String) :
    lookupJ (p :: l) k = if p.1 == k then p.2 else lookupJ l k := by
  unfold lookupJ
  by_cases h : p.1 == k <;> simp [List.find?_cons, h]

theorem lookupJ_of_hasKeyJ_false (m : JMap) (k : String)
    (h : hasKeyJ m k = false) : lookupJ m k = .undefinedV := by
  unfold hasKeyJ at h
  unfold lookupJ
  cases hf : m.find? (fun p => p.1 == k) with
  | none => rfl
  | some p => rw [hf] at h; simp at h

theorem lookupJ_jmerge (a b : JMap) (k : String) :
    lookupJ (jmerge a b) k = if hasKeyJ b k then lookupJ b k else lookupJ a k := by
  induction a with
  | nil =>
      show lookupJ b k = _
      by_cases hb : hasKeyJ b k
      · simp [hb]
      · simp only [Bool.not_eq_true] at hb
        simp only [hb, Bool.false_eq_true, if_false]
        show lookupJ b k = JVal.undefinedV
        exact lookupJ_of_hasKeyJ_false b k hb
  | cons p a ih =>
      show lookupJ ((p :: a).filter (fun q => !hasKeyJ b q.1) ++ b) k = _
      by_cases hp : hasKeyJ b p.1
      · have : ((p :: a).filter (fun q => !hasKeyJ b q.1) ++ b) = jmerge a b := by
          simp [jmerge, List.filter_cons, hp]
        rw [this, ih]
        by_cases hbk : hasKeyJ b k
        · simp [hbk]
        · have hpk : ¬ p.1 = k := by
            intro he; rw [he] at hp; simp only [Bool.not_eq_true] at hbk
            rw [hp] at hbk; cases hbk
          simp [hbk, lookupJ_cons, hpk]
      · have : ((p :: a).filter (fun q => !hasKeyJ b q.1) ++ b) = p :: jmerge a b := by
          simp only [Bool.not_eq_true] at hp
          simp [jmerge, List.filter_cons, hp]
        rw [this, lookupJ_cons]
        by_cases hpk : p.1 = k
        · have hbk : hasKeyJ b k = false := by
            simp only [Bool.not_eq_true] at hp; rw [← hpk]; exact hp
          simp [hpk, hbk, lookupJ_cons]
        · simp only [beq_iff_eq, hpk, if_false, ih]
          by_cases hbk : hasKeyJ b k <;> simp [hbk, lookupJ_cons, hpk]

end MapLemmas

section MinMaxLemmas

theorem foldl_min_le_init (xs : List ℚ) (x : ℚ) : xs.foldl min x ≤ x := by
  induction xs generalizing x with
  | nil => exact le_refl x
  | cons y ys ih => exact le_trans (ih (min x y)) (min_le_left x y)

theorem foldl_min_mem (xs : List ℚ) (x : ℚ) : xs.foldl min x ∈ x :: xs := by
  induction xs generalizing x with
  | nil => simp
  | cons y ys ih =>
      have h := ih (min x y)
      rcases List.mem_cons.mp h with h1 | h1
      · rcases min_choice x y with hc | hc <;>
          simp [List.foldl_cons, h1.trans hc]
      · simp [List.foldl_cons, List.mem_cons, h1]

theorem foldl_min_le (xs : List ℚ) (x y : ℚ) (hy : y ∈ x :: xs) :
    xs.foldl min x ≤ y := by
  induction xs generalizing x with
  | nil => simp at hy; simp [hy]
  | cons z zs ih =>
      rcases List.mem_cons.mp hy with h1 | h1
      · rw [h1]
        exact le_trans (foldl_min_le_init zs (min x z)) (min_le_left x z)
      · rcases List.mem_cons.mp h1 with h2 | h2
        · rw [h2]
          exact le_trans (foldl_min_le_init zs (min x z)) (min_le_right x z)
        · exact ih (min x z) (List.mem_cons_of_mem _ h2)

theorem le_foldl_max_init (xs : List ℚ) (x : ℚ) : x ≤ xs.foldl max x := by
  induction xs generalizing x with
  | nil => exact le_refl x
  | cons y ys ih => exact le_trans (le_max_left x y) (ih (max x y))

theorem foldl_max_mem (xs : List ℚ) (x : ℚ) : xs.foldl max x ∈ x :: xs := by
  induction xs generalizing x with
  | nil => simp
  | cons y ys ih =>
      have h := ih (max x y)
      rcases List.mem_cons.mp h with h1 | h1
      · rcases max_choice x y with hc | hc <;>
          simp [List.foldl_cons, h1.trans hc]
      · simp [List.foldl_cons, List.mem_cons, h1]

theorem le_foldl_max (xs : List ℚ) (x y : ℚ) (hy : y ∈ x :: xs) :
    y ≤ xs.foldl max x := by
  induction xs generalizing x with
  | nil => simp at hy; simp [hy]
  | cons z zs ih =>
      rcases List.mem_cons.mp hy with h1 | h1
      · rw [h1]
        exact le_trans (le_max_left x z) (le_foldl_max_init zs (max x z))
      · rcases List.mem_cons.mp h1 with h2 | h2
        · rw [h2]
          exact le_trans (le_max_right x z) (le_foldl_max_init zs (max x z))
        · exact ih (max x z) (List.mem_cons_of_mem _ h2)

theorem minOf_mem (l : List ℚ) (h : l ≠ []) : minOf l ∈ l := by
  cases l with
  | nil => cases h rfl
  | cons x xs => exact foldl_min_mem xs x

theorem minOf_le (l : List ℚ) (y : ℚ) (hy : y ∈ l) : minOf l ≤ y := by
  cases l with
  | nil => cases hy
  | cons x xs => exact foldl_min_le xs x y hy

theorem maxOf_mem (l : List ℚ) (h : l ≠ []) : maxOf l ∈ l := by
  cases l with
  | nil => cases h rfl
  | cons x xs => exact foldl_max_mem xs x

theorem le_maxOf (l : List ℚ) (y : ℚ) (hy : y ∈ l) : y ≤ maxOf l := by
  cases l with
  | nil => cases hy
  | cons x xs => exact le_foldl_max xs x y hy

end MinMaxLemmas

section ClaimC3

/-- C3: for all valid numeric inputs `start_speed`, `step_size`,
`measured_height`, the `volumetric_speed` auto-compute returns
`max_volumetric_speed` equal to `start_speed + measured_height * step_size`
rounded to 2 decimal places. -/
theorem volumetric_speed_formula (inputs : JMap) (s st h : ℚ)
    (hs : numGuard (lookupJ inputs "start_speed") = some s)
    (hst : numGuard (lookupJ inputs "step_size") = some st)
    (hh : numGuard (lookupJ inputs "measured_height") = some h) :
    autoComputeVolumetricSpeed inputs =
      [("max_volumetric_speed", roundTo 2 (s + h * st))] := by
  unfold autoComputeVolumetricSpeed
  rw [hs, hst, hh]

/-- Witness for C3 at `start_speed = 10`, `step_size = 3`,
`measured_height = 7`. -/
theorem volumetric_speed_formula_witness :
    autoComputeVolumetricSpeed
        [("start_speed", .num 10), ("step_size", .num 3), ("measured_height", .num 7)] =
      [("max_volumetric_speed", roundTo 2 (10 + 7 * 3))] :=
  volumetric_speed_formula _ 10 3 7 rfl rfl rfl

end ClaimC3

section ClaimC9

/-- C9: in the flow-rate calculator's Legacy method, for every pass with
non-null, non-NaN flow ratio and percentage modifier, the pass result is
`ratio * (100 + modifier) / 100` rounded to 5 decimal places (ratio `1.0`
with modifier `-2.5` yields `0.975`), and the result is `null` when either
input is missing. -/
theorem legacy_pass_result_spec :
    (∀ r m : ℚ, legacyPassResult (.num r) (.num m) =
        some (roundTo 5 (r * (100 + m) / 100)))
  ∧ (∀ v w : JVal, numGuard v = none ∨ numGuard w = none →
        legacyPassResult v w = none)
  ∧ legacyPassResult (.num 1) (.num (-5/2)) = some (39/40) := by
  refine ⟨fun r m => rfl, ?_, ?_⟩
  · intro v w h
    cases v <;> cases w <;> simp_all [legacyPassResult, numGuard]
  · show some (roundTo 5 (1 * (100 + (-5/2)) / 100)) = some (39/40)
    norm_num [roundTo, round_eq]

/-- Witness for C9's missing-input clause at ratio `null`. -/
theorem legacy_pass_result_spec_witness :
    legacyPassResult JVal.null (JVal.num 0) = none :=
  legacy_pass_result_spec.2.1 JVal.null (JVal.num 0) (Or.inl rfl)

end ClaimC9

section ClaimC7

/-- C7: whenever the pressure-advance method is "pattern", the tower
auto-compute never runs — the `result` mapping is returned unchanged for
every inputs value (including stale tower inputs `pa_step_a` /
`measured_height_b`) and every current result mapping. -/
theorem pattern_never_runs_tower :
    ∀ (inputs : Option JMap) (current : JMap),
      autoComputeEffect .pressure_advance .pattern inputs current = current := by
  intro inputs current
  cases inputs with
  | none => rfl
  | some iv => simp [autoComputeEffect, stepAutoCompute]

end ClaimC7

section ClaimC2

/-- C2: a registry formula produces an update exactly when all of its
required inputs are present and numeric; otherwise it yields no update and
the auto-compute effect leaves every existing output value unchanged — with
the single exception of VFA, whose effect sets both of its outputs to
`null` when the artifact-speed list becomes empty. -/
theorem autoCompute_fires_iff :
    (∀ st ac inputs, stepAutoCompute st = some ac →
        (ac inputs ≠ [] ↔
          ∀ k ∈ requiredInputKeys st, (numGuard (lookupJ inputs k)).isSome = true))
  ∧ (∀ st ac pa inputs current, stepAutoCompute st = some ac → ac inputs = [] →
        autoComputeEffect st pa (some inputs) current = current)
  ∧ (∀ current : JMap,
        lookupJ (vfaEffect [] current) "min_avoidance_speed" = .null ∧
        lookupJ (vfaEffect [] current) "max_avoidance_speed" = .null) := by
  refine ⟨?_, ?_, ?_⟩
  · intro st ac inputs hac
    cases st <;> simp only [stepAutoCompute] at hac <;> try cases hac
    · -- volumetric_speed
      unfold autoComputeVolumetricSpeed requiredInputKeys
      cases h1 : numGuard (lookupJ inputs "start_speed") <;>
        cases h2 : numGuard (lookupJ inputs "step_size") <;>
        cases h3 : numGuard (lookupJ inputs "measured_height") <;>
        simp [h1, h2, h3]
    · -- pressure_advance
      unfold autoComputePressureAdvance requiredInputKeys
      cases h1 : numGuard (lookupJ inputs "pa_step_a") <;>
        cases h2 : numGuard (lookupJ inputs "measured_height_b") <;>
        simp [h1, h2]
    · -- retraction
      unfold autoComputeRetraction requiredInputKeys
      cases h1 : numGuard (lookupJ inputs "start_retract") <;>
        cases h2 : numGuard (lookupJ inputs "measured_height") <;>
        cases h3 : numGuard (lookupJ inputs "factor") <;>
        simp [h1, h2, h3]
    · -- tolerance
      unfold autoComputeTolerance requiredInputKeys
      cases h1 : numGuard (lookupJ inputs "test_size") <;>
        cases h2 : numGuard (lookupJ inputs "measured_size") <;>
        simp [h1, h2]
  · intro st ac pa inputs current hac hempty
    cases st <;> simp only [stepAutoCompute] at hac <;> try cases hac
    all_goals cases pa <;> simp [autoComputeEffect, stepAutoCompute, hempty]
  · intro current
    constructor <;>
      · rw [show vfaEffect [] current =
            jmerge current
              [("min_avoidance_speed", .null), ("max_avoidance_speed", .null)]
          from rfl, lookupJ_jmerge]
        rfl

/-- Witness for C2 at the `tolerance` formula: complete numeric inputs make
it fire; an empty inputs mapping yields no update and leaves an existing
output untouched. -/
theorem autoCompute_fires_iff_witness :
    ((autoComputeTolerance [("test_size", .num 20), ("measured_size", .num 19)] ≠ [] ↔
        ∀ k ∈ requiredInputKeys .tolerance,
          (numGuard
            (lookupJ [("test_size", .num 20), ("measured_size", .num 19)] k)).isSome = true)
    ∧ autoComputeEffect .tolerance .tower (some [])
        [("tolerance_offset", .num 1)] = [("tolerance_offset", .num 1)]) :=
  ⟨autoCompute_fires_iff.1 .tolerance _ _ rfl,
   autoCompute_fires_iff.2.1 .tolerance _ .tower [] _ rfl rfl⟩

end ClaimC2

section ClaimC8

/-- C8: for the VFA step, after every mutation of the artifact-speed list,
the effect writes `min_avoidance_speed` / `max_avoidance_speed` into the
result mapping: when the list is non-empty they are its minimum and maximum
(a member that bounds every member), when empty both are `null`, and all
other result fields are merged through unchanged. -/
theorem vfa_minmax_contract :
    ∀ (mu : VfaMutation) (speeds : List ℚ) (current : JMap),
      (applyVfaMutation mu speeds = [] →
        lookupJ (vfaEffect (applyVfaMutation mu speeds) current)
            "min_avoidance_speed" = .null ∧
        lookupJ (vfaEffect (applyVfaMutation mu speeds) current)
            "max_avoidance_speed" = .null)
    ∧ (applyVfaMutation mu speeds ≠ [] →
        lookupJ (vfaEffect (applyVfaMutation mu speeds) current)
            "min_avoidance_speed" = .num (minOf (applyVfaMutation mu speeds)) ∧
        lookupJ (vfaEffect (applyVfaMutation mu speeds) current)
            "max_avoidance_speed" = .num (maxOf (applyVfaMutation mu speeds)) ∧
        minOf (applyVfaMutation mu speeds) ∈ applyVfaMutation mu speeds ∧
        (∀ x ∈ applyVfaMutation mu speeds, minOf (applyVfaMutation mu speeds) ≤ x) ∧
        maxOf (applyVfaMutation mu speeds) ∈ applyVfaMutation mu speeds ∧
        (∀ x ∈ applyVfaMutation mu speeds, x ≤ maxOf (applyVfaMutation mu speeds)))
    ∧ (∀ k, k ≠ "min_avoidance_speed" → k ≠ "max_avoidance_speed" →
        lookupJ (vfaEffect (applyVfaMutation mu speeds) current) k =
          lookupJ current k) := by
  intro mu speeds current
  generalize applyVfaMutation mu speeds = s2
  refine ⟨?_, ?_, ?_⟩
  · intro h
    subst h
    constructor <;>
      · rw [show vfaEffect [] current =
            jmerge current
              [("min_avoidance_speed", .null), ("max_avoidance_speed", .null)]
          from rfl, lookupJ_jmerge]
        rfl
  · intro h
    have heff : vfaEffect s2 current =
        jmerge current
          [("min_avoidance_speed", .num (minOf s2)),
           ("max_avoidance_speed", .num (maxOf s2))] := by
      unfold vfaEffect
      rw [if_neg]
      simp [List.isEmpty_iff, h]
    refine ⟨?_, ?_, minOf_mem s2 h, fun x hx => minOf_le s2 x hx,
      maxOf_mem s2 h, fun x hx => le_maxOf s2 x hx⟩
    · rw [heff, lookupJ_jmerge]; rfl
    · rw [heff, lookupJ_jmerge]; rfl
  · intro k hk1 hk2
    unfold vfaEffect
    by_cases hs : s2.isEmpty <;>
      simp [hs, lookupJ_jmerge, hasKeyJ, List.find?,
        beq_eq_false_iff_ne.mpr (Ne.symm hk1), beq_eq_false_iff_ne.mpr (Ne.symm hk2)]

/-- Witness for C8: adding speed 5 to the empty list. -/
theorem vfa_minmax_contract_witness :
    applyVfaMutation (.add (.num 5)) [] ≠ [] ∧
    lookupJ (vfaEffect (applyVfaMutation (.add (.num 5)) []) [("note", .bool true)])
        "min_avoidance_speed" = .num (minOf (applyVfaMutation (.add (.num 5)) [])) ∧
    lookupJ (vfaEffect (applyVfaMutation (.add (.num 5)) []) [("note", .bool true)])
        "note" = lookupJ [("note", .bool true)] "note" :=
  ⟨by decide,
   ((vfa_minmax_contract (.add (.num 5)) [] [("note", .bool true)]).2.1 (by decide)).1,
   (vfa_minmax_contract (.add (.num 5)) [] [("note", .bool true)]).2.2 "note"
     (by decide) (by decide)⟩

end ClaimC8

section FindLemmas

theorem findP_append {α} (p : α → Bool) (l1 l2 : List α) :
    (l1 ++ l2).find? p =
      match l1.find? p with
      | some x => some x
      | none => l2.find? p := by
  induction l1 with
  | nil => rfl
  | cons x xs ih =>
      by_cases h : p x
      · simp [List.find?_cons_of_pos, h]
      · simp [List.find?_cons_of_neg, h, ih]

theorem findP_isSome_of_mem {α} (p : α → Bool) (l : List α) (x : α)
    (hx : x ∈ l) (hp : p x = true) : (l.find? p).isSome = true := by
  induction l with
  | nil => cases hx
  | cons y ys ih =>
      by_cases h : p y
      · simp [List.find?_cons_of_pos, h]
      · rcases List.mem_cons.mp hx with h1 | h1
        · rw [h1] at hp; rw [hp] at h; cases h rfl
        · rw [List.find?_cons_of_neg _ h]; exact ih h1

end FindLemmas

section ClaimC4

theorem latestByType_foldl (l : List StepResult)
    (acc : StepType → Option StepResult) (st : StepType) :
    (l.foldl updateLatest acc) st =
      match l.reverse.find? (fun r => r.step_type == st && nonEmptySel r) with
      | some r => some r
      | none => acc st := by
  induction l generalizing acc with
  | nil => rfl
  | cons r rs ih =>
      rw [List.foldl_cons, ih, List.reverse_cons, findP_append]
      cases hf : rs.reverse.find? (fun x => x.step_type == st && nonEmptySel x) with
      | some x => rfl
      | none =>
          unfold updateLatest
          by_cases hsel : nonEmptySel r
          · by_cases hty : st = r.step_type
            · simp [List.find?, hsel, hty]
            · have : (r.step_type == st) = false :=
                beq_eq_false_iff_ne.mpr (fun he => hty he.symm)
              simp [List.find?, hsel, hty, this]
          · simp only [Bool.not_eq_true] at hsel
            simp [List.find?, hsel]

/-- A step persisted by the wizard's re-save of a previously skipped step:
`outputs` and `selected_values` both equal the sentinel `{ _skipped: true }`
(see the C1 analysis for reachability). StepList classifies it "Skipped". -/
def resavedSkippedStep : StepResult :=
  ⟨7, .input_shaping, none, some sentinelMap, some sentinelMap, none, none⟩

/-- An older, genuine `input_shaping` recommendation. -/
def genuineShaperStep : StepResult :=
  ⟨3, .input_shaping, none, some [("shaper_type_x", JVal.str "mzv")],
    some [("shaper_type_x", JVal.str "mzv")], none, none⟩

/-- Two sessions, newest first: the newer one holds only the re-saved
skipped step, the older one a genuine recommendation of the same type. -/
def skippedShadowSessions : List Session :=
  [⟨2, 1, .in_progress, [resavedSkippedStep]⟩,
   ⟨1, 1, .complete, [genuineShaperStep]⟩]

/-- Counterexample to C4 as stated: the aggregator's only guard is a
non-empty `selected_values`, never the skip sentinel, so a step classified
"Skipped" whose `selected_values` is the non-empty `{ _skipped: true }`
does contribute — it wins `latestByType` for its step type and shadows the
older session's genuine recommendation. -/
theorem skipped_step_contributes :
    isSkippedStep resavedSkippedStep = true ∧
    nonEmptySel genuineShaperStep = true ∧
    latestByType skippedShadowSessions .input_shaping = some resavedSkippedStep ∧
    latestByType skippedShadowSessions .input_shaping ≠ some genuineShaperStep := by
  decide

/-- C4 (amended): the recommended-settings aggregator surfaces, per step
type, the most recently created Step Result (most-recent session first,
most-recent step within iteration) that has a non-empty `selected_values`
mapping; steps with empty or absent `selected_values` never contribute and
a newer session's match supersedes an older session's for the same step
type — but skip status itself is never checked, so a re-saved skipped step
whose `selected_values` is the non-empty sentinel `{ _skipped: true }`
contributes and shadows older genuine values. -/
theorem recommended_aggregation_contract :
    (∀ sessions st, latestByType sessions st = specLatestStep sessions st)
  ∧ (∀ sessions st r, latestByType sessions st = some r →
        r.step_type = st ∧ nonEmptySel r = true)
  ∧ (∀ newer older : Session, ∀ st r, r ∈ newer.steps → r.step_type = st →
        nonEmptySel r = true →
        ∃ r2, latestByType [newer, older] st = some r2 ∧ r2 ∈ newer.steps)
  ∧ (isSkippedStep resavedSkippedStep = true ∧
      latestByType skippedShadowSessions .input_shaping = some resavedSkippedStep) := by
  have hspec : ∀ sessions st, latestByType sessions st = specLatestStep sessions st := by
    intro sessions st
    unfold latestByType specLatestStep
    rw [latestByType_foldl]
    cases ((sessions.reverse.map (fun s => s.steps)).flatten).reverse.find?
        (fun r => r.step_type == st && nonEmptySel r) with
    | some r => rfl
    | none => rfl
  refine ⟨hspec, ?_, ?_, by decide⟩
  · intro sessions st r h
    rw [hspec] at h
    unfold specLatestStep at h
    have := List.find?_some h
    simp only [Bool.and_eq_true, beq_iff_eq] at this
    exact this
  · intro newer older st r hr hty hsel
    have hflat : ([newer, older].reverse.map (fun s => s.steps)).flatten.reverse =
        newer.steps.reverse ++ older.steps.reverse := by
      simp
    have hmem : r ∈ newer.steps.reverse := List.mem_reverse.mpr hr
    have hsome := findP_isSome_of_mem (fun x => x.step_type == st && nonEmptySel x)
      newer.steps.reverse r hmem (by simp [hty, hsel])
    rw [hspec]
    unfold specLatestStep
    rw [hflat, findP_append]
    cases hf : newer.steps.reverse.find? (fun x => x.step_type == st && nonEmptySel x) with
    | none => rw [hf] at hsome; cases hsome
    | some r2 =>
        exact ⟨r2, rfl, List.mem_reverse.mp (List.mem_of_find?_eq_some hf)⟩

/-- Witness for C4's supersede clause: two sessions for the same filament,
each with a `flow_rate` result, newest first. -/
theorem recommended_aggregation_contract_witness :
    ∃ r2, latestByType
        [⟨2, 1, .complete,
          [⟨10, .flow_rate, none, some [("flow_ratio", .num 1)],
            some [("flow_ratio", .num 1)], none, none⟩]⟩,
         ⟨1, 1, .complete,
          [⟨5, .flow_rate, none, some [("flow_ratio", .num 2)],
            some [("flow_ratio", .num 2)], none, none⟩]⟩] .flow_rate = some r2 ∧
      r2 ∈ [(⟨10, .flow_rate, none, some [("flow_ratio", .num 1)],
            some [("flow_ratio", .num 1)], none, none⟩ : StepResult)] :=
  recommended_aggregation_contract.2.2.1 _ _ .flow_rate
    ⟨10, .flow_rate, none, some [("flow_ratio", .num 1)],
      some [("flow_ratio", .num 1)], none, none⟩
    (List.mem_singleton.mpr rfl) rfl rfl

end ClaimC4

section FindIndexLemmas

theorem findIndexD_some {α : Type} (p : α → Bool) (d : α) :
    ∀ (l : List α) (i : ℕ), findIndexD p l = some i →
      i < l.length ∧ p (l.getD i d) = true ∧ ∀ j < i, p (l.getD j d) = false := by
  intro l
  induction l with
  | nil => intro i h; cases h
  | cons x xs ih =>
      intro i h
      by_cases hx : p x
      · rw [findIndexD, if_pos hx] at h
        cases h
        exact ⟨Nat.succ_pos _, hx, fun j hj => absurd hj (Nat.not_lt_zero j)⟩
      · rw [findIndexD, if_neg hx] at h
        rcases Option.map_eq_some'.mp h with ⟨i2, hi2, hieq⟩
        subst hieq
        rcases ih i2 hi2 with ⟨hlen, hpi, hprev⟩
        refine ⟨Nat.succ_lt_succ hlen, hpi, fun j hj => ?_⟩
        cases j with
        | zero =>
            show p x = false
            exact Bool.not_eq_true _ ▸ (by simpa using hx)
        | succ j2 => exact hprev j2 (Nat.lt_of_succ_lt_succ hj)

theorem findIndexD_none {α : Type} (p : α → Bool) :
    ∀ l : List α, findIndexD p l = none → ∀ x ∈ l, p x = false := by
  intro l
  induction l with
  | nil => intro _ x hx; cases hx
  | cons y ys ih =>
      intro h x hx
      by_cases hy : p y
      · rw [findIndexD, if_pos hy] at h; cases h
      · rw [findIndexD, if_neg hy] at h
        rcases List.mem_cons.mp hx with h1 | h1
        · rw [h1]; simpa using hy
        · exact ih (Option.map_eq_none'.mp h) x h1

end FindIndexLemmas

section ClaimC5

/-- The resume example: a session with persisted `temperature` and
`flow_rate` steps (7 of the 9 step types have no result yet). -/
def resumeExampleSession : Session :=
  ⟨1, 1, .in_progress,
   [⟨1, .temperature, none, none, none, none, none⟩,
    ⟨2, .flow_rate, none, none, none, none, none⟩]⟩

/-- Counterexample to C5's example: a session with persisted `temperature`
and `flow_rate` steps opens at `volumetric_speed` (canonical index 1), not
at `pressure_advance` as the claim states. -/
theorem wizard_resume_example_counter :
    WIZARD_STEP_ORDER.getD (wizardOpen resumeExampleSession 3).currentIdx .temperature =
        .volumetric_speed ∧
    WIZARD_STEP_ORDER.getD (wizardOpen resumeExampleSession 3).currentIdx .temperature ≠
        .pressure_advance := by
  decide

/-- C5 (amended): opening the wizard sets the current step to the first
step type in the canonical 9-step order that is not in the done-set
recomputed from the session's persisted steps, and to index 0 when every
step type is done; a session with persisted `temperature` and `flow_rate`
steps opens at `volumetric_speed` (index 1). -/
theorem wizard_resume_first_pending :
    (∀ session nid, (wizardOpen session nid).currentIdx < WIZARD_STEP_ORDER.length)
  ∧ (∀ session nid j, j < (wizardOpen session nid).currentIdx →
        WIZARD_STEP_ORDER.getD j .temperature ∈ doneTypesOf session)
  ∧ (∀ session nid,
        WIZARD_STEP_ORDER.getD (wizardOpen session nid).currentIdx .temperature ∈
            doneTypesOf session →
        (∀ st ∈ WIZARD_STEP_ORDER, st ∈ doneTypesOf session) ∧
          (wizardOpen session nid).currentIdx = 0)
  ∧ (wizardOpen resumeExampleSession 3).currentIdx = 1 := by
  have hcontains : ∀ (done : List StepType) (st : StepType),
      (!done.contains st) = false ↔ st ∈ done := by
    intro done st
    constructor
    · intro h
      have : done.contains st = true := by
        cases hc : done.contains st
        · rw [hc] at h; cases h
        · rfl
      exact List.elem_iff.mp this
    · intro h
      have : done.contains st = true := List.elem_iff.mpr h
      rw [this]; rfl
  have hidx : ∀ session nid, (wizardOpen session nid).currentIdx =
      (findIndexD (fun st => !(doneTypesOf session).contains st) WIZARD_STEP_ORDER).getD 0 :=
    fun _ _ => rfl
  refine ⟨?_, ?_, ?_, by decide⟩
  · intro session nid
    rw [hidx]
    cases hf : findIndexD (fun st => !(doneTypesOf session).contains st) WIZARD_STEP_ORDER with
    | none => decide
    | some i =>
        have := (findIndexD_some _ .temperature WIZARD_STEP_ORDER i hf).1
        simpa using this
  · intro session nid j hj
    rw [hidx] at hj
    cases hf : findIndexD (fun st => !(doneTypesOf session).contains st) WIZARD_STEP_ORDER with
    | none => rw [hf] at hj; cases hj
    | some i =>
        rw [hf] at hj
        have hprev := (findIndexD_some _ .temperature WIZARD_STEP_ORDER i hf).2.2 j hj
        exact (hcontains _ _).mp hprev
  · intro session nid hdone
    rw [hidx] at hdone ⊢
    cases hf : findIndexD (fun st => !(doneTypesOf session).contains st) WIZARD_STEP_ORDER with
    | none =>
        refine ⟨fun st hst => ?_, rfl⟩
        exact (hcontains _ _).mp (findIndexD_none _ WIZARD_STEP_ORDER hf st hst)
    | some i =>
        rw [hf] at hdone
        simp only [Option.getD_some] at hdone
        have hpi := (findIndexD_some _ .temperature WIZARD_STEP_ORDER i hf).2.1
        rw [(hcontains _ _).mpr hdone] at hpi
        cases hpi

/-- Witness for C5's prefix/all-done clauses at the example session. -/
theorem wizard_resume_first_pending_witness :
    (0 < (wizardOpen resumeExampleSession 3).currentIdx →
      WIZARD_STEP_ORDER.getD 0 .temperature ∈ doneTypesOf resumeExampleSession) ∧
    WIZARD_STEP_ORDER.getD 0 .temperature ∈ doneTypesOf resumeExampleSession :=
  ⟨wizard_resume_first_pending.2.1 resumeExampleSession 3 0,
   wizard_resume_first_pending.2.1 resumeExampleSession 3 0 (by decide)⟩

end ClaimC5

section ClaimC6

/-- `input_shaping` sits at canonical index 7 (and nowhere else), so the
skip-as-not-applicable button is never offered on the last step. -/
theorem getD_input_shaping :
    ∀ n : ℕ, WIZARD_STEP_ORDER.getD n .temperature = .input_shaping → n = 7
  | 0, h => StepType.noConfusion h
  | 1, h => StepType.noConfusion h
  | 2, h => StepType.noConfusion h
  | 3, h => StepType.noConfusion h
  | 4, h => StepType.noConfusion h
  | 5, h => StepType.noConfusion h
  | 6, h => StepType.noConfusion h
  | 7, _ => rfl
  | 8, h => StepType.noConfusion h
  | _ + 9, h => StepType.noConfusion h

/-- C6: saving the last step transitions the session status to `complete`;
besides explicit skip-to-finish on the last step, no other wizard action —
navigation, non-last save or skip, skip-as-not-applicable, form edits,
closing without saving, or opening — changes the session status, and
closing changes nothing about the session at all. -/
theorem session_status_transitions :
    (∀ s : WizardState, isLast s → (wstep s .saveAndContinue).session.status = .complete)
  ∧ (∀ (s : WizardState) (a : WAction),
        (wstep s a).session.status = s.session.status ∨
          ((a = .saveAndContinue ∨ a = .skip) ∧ isLast s))
  ∧ (∀ s : WizardState, (wstep s .close).session = s.session)
  ∧ (∀ session nid, (wizardOpen session nid).session = session) := by
  have hnav : ∀ (s : WizardState) (i : ℕ), (navigateTo s i).session = s.session := by
    intro s i
    unfold navigateTo
    split <;> rfl
  refine ⟨?_, ?_, fun _ => rfl, fun _ _ => rfl⟩
  · intro s h
    simp [wstep, h, markComplete, saveCurrentStep]
  · intro s a
    cases a with
    | navigate i => left; rw [wstep, hnav]
    | saveAndContinue =>
        by_cases h : isLast s
        · exact Or.inr ⟨Or.inl rfl, h⟩
        · left
          show (if isLast s then markComplete (saveCurrentStep s)
              else navigateTo (saveCurrentStep s) (s.currentIdx + 1)).session.status = _
          rw [if_neg h, hnav]
          rfl
    | skip =>
        by_cases h : isLast s
        · exact Or.inr ⟨Or.inr rfl, h⟩
        · left
          show (if isLast s then markComplete s
              else navigateTo s (s.currentIdx + 1)).session.status = _
          rw [if_neg h, hnav]
    | saveAsSkipped =>
        left
        by_cases hg : currentStepType s = .input_shaping
        · have hidx : s.currentIdx = 7 := getD_input_shaping s.currentIdx hg
          simp [wstep, hg, isLast, hidx, WIZARD_STEP_ORDER, navigateTo]
        · simp [wstep, hg]
    | setForm f => left; rfl
    | close => left; rfl

/-- Witness for C6 at a concrete last-step state: saving completes the
session. -/
theorem session_status_transitions_witness :
    (wstep ⟨8, [], [], emptyForm, ⟨1, 1, .in_progress, []⟩, 0⟩
        .saveAndContinue).session.status = .complete :=
  session_status_transitions.1 ⟨8, [], [], emptyForm, ⟨1, 1, .in_progress, []⟩, 0⟩
    (by decide)

end ClaimC6

section WizardLemmas

theorem navigateTo_session (s : WizardState) (i : ℕ) :
    (navigateTo s i).session = s.session := by
  unfold navigateTo; split <;> rfl

theorem navigateTo_doneTypes (s : WizardState) (i : ℕ) :
    (navigateTo s i).doneTypes = s.doneTypes := by
  unfold navigateTo; split <;> rfl

theorem mem_insert_append_iff (done : List StepType) (steps : List StepResult)
    (newStep : StepResult) (st : StepType)
    (hinv : st ∈ done ↔ ∃ r ∈ steps, r.step_type = st) :
    st ∈ done.insert newStep.step_type ↔
      ∃ r ∈ steps ++ [newStep], r.step_type = st := by
  constructor
  · intro h
    rcases List.mem_insert_iff.mp h with h1 | h1
    · exact ⟨newStep, List.mem_append.mpr (Or.inr (List.mem_singleton.mpr rfl)), h1.symm⟩
    · rcases hinv.mp h1 with ⟨r, hr, hty⟩
      exact ⟨r, List.mem_append.mpr (Or.inl hr), hty⟩
  · rintro ⟨r, hr, hty⟩
    rcases List.mem_append.mp hr with h1 | h1
    · exact List.mem_insert_iff.mpr (Or.inr (hinv.mpr ⟨r, h1, hty⟩))
    · rw [List.mem_singleton.mp h1] at hty
      exact List.mem_insert_iff.mpr (Or.inl hty.symm)

end WizardLemmas

section ClaimC10

/-- An "incomplete" persisted step: neither skipped nor carrying a
non-empty `selected_values`. -/
def incompleteExampleStep : StepResult :=
  ⟨1, .temperature, some [], some [], some [], none, none⟩

/-- A session whose only persisted step is incomplete. -/
def incompleteExampleSession : Session :=
  ⟨1, 1, .in_progress, [incompleteExampleStep]⟩

/-- C10: the wizard's done-set contains a step type exactly when the
session has at least one persisted Step Result of that type — regardless of
whether that result is skipped, completed or incomplete — and every wizard
action preserves this; consequently resume-on-open jumps past an incomplete
step and the sidebar marks it done. -/
theorem doneSet_membership :
    (∀ session nid st, st ∈ (wizardOpen session nid).doneTypes ↔
        ∃ r ∈ session.steps, r.step_type = st)
  ∧ (∀ (s : WizardState) (a : WAction) (st : StepType),
        (st ∈ s.doneTypes ↔ ∃ r ∈ s.session.steps, r.step_type = st) →
        (st ∈ (wstep s a).doneTypes ↔
          ∃ r ∈ (wstep s a).session.steps, r.step_type = st))
  ∧ (∀ session nid r, r ∈ session.steps →
        sidebarIsDone (wizardOpen session nid) r.step_type = true)
  ∧ (isIncompleteStep incompleteExampleStep = true ∧
      (wizardOpen incompleteExampleSession 2).currentIdx = 1) := by
  have hopen : ∀ session nid st, st ∈ (wizardOpen session nid).doneTypes ↔
      ∃ r ∈ session.steps, r.step_type = st := by
    intro session nid st
    show st ∈ session.steps.map (fun r => r.step_type) ↔ _
    simp [List.mem_map]
  refine ⟨hopen, ?_, ?_, by decide, by decide⟩
  · intro s a st hinv
    cases a with
    | navigate i =>
        rw [wstep, navigateTo_doneTypes, navigateTo_session]
        exact hinv
    | saveAndContinue =>
        by_cases h : isLast s
        · have he : wstep s .saveAndContinue = markComplete (saveCurrentStep s) := by
            show (if isLast s then _ else _) = _
            rw [if_pos h]
          rw [he]
          exact mem_insert_append_iff s.doneTypes s.session.steps
            ⟨s.nextId, currentStepType s, s.form.inputs, s.form.result,
              s.form.result, s.form.notes, s.form.confidence⟩ st hinv
        · have he : wstep s .saveAndContinue =
              navigateTo (saveCurrentStep s) (s.currentIdx + 1) := by
            show (if isLast s then _ else _) = _
            rw [if_neg h]
          rw [he, navigateTo_doneTypes, navigateTo_session]
          exact mem_insert_append_iff s.doneTypes s.session.steps
            ⟨s.nextId, currentStepType s, s.form.inputs, s.form.result,
              s.form.result, s.form.notes, s.form.confidence⟩ st hinv
    | skip =>
        by_cases h : isLast s
        · have he : wstep s .skip = markComplete s := by
            show (if isLast s then _ else _) = _
            rw [if_pos h]
          rw [he]
          exact hinv
        · have he : wstep s .skip = navigateTo s (s.currentIdx + 1) := by
            show (if isLast s then _ else _) = _
            rw [if_neg h]
          rw [he, navigateTo_doneTypes, navigateTo_session]
          exact hinv
    | saveAsSkipped =>
        by_cases hg : currentStepType s = .input_shaping
        · have hidx : s.currentIdx = 7 := getD_input_shaping s.currentIdx hg
          have he : (wstep s .saveAsSkipped).doneTypes =
                s.doneTypes.insert (currentStepType s) ∧
              (wstep s .saveAsSkipped).session.steps = s.session.steps ++
                [⟨s.nextId, currentStepType s, none, some sentinelMap,
                  none, none, none⟩] := by
            constructor <;>
              simp [wstep, hg, isLast, hidx, WIZARD_STEP_ORDER, navigateTo,
                navigateTo_doneTypes, markComplete]
          rw [he.1, he.2]
          exact mem_insert_append_iff s.doneTypes s.session.steps
            ⟨s.nextId, currentStepType s, none, some sentinelMap,
              none, none, none⟩ st hinv
        · have he : wstep s .saveAsSkipped = s := by
            show (if currentStepType s = .input_shaping then _ else _) = _
            rw [if_neg hg]
          rw [he]
          exact hinv
    | setForm f => exact hinv
    | close => exact hinv
  · intro session nid r hr
    unfold sidebarIsDone
    exact List.elem_iff.mpr ((hopen session nid r.step_type).mpr ⟨r, hr, rfl⟩)

/-- Witness for C10's preservation clause at a concrete state and action. -/
theorem doneSet_membership_witness :
    StepType.temperature ∈
        (wstep (wizardOpen incompleteExampleSession 2) .skip).doneTypes ↔
      ∃ r ∈ (wstep (wizardOpen incompleteExampleSession 2) .skip).session.steps,
        r.step_type = .temperature :=
  doneSet_membership.2.1 (wizardOpen incompleteExampleSession 2) .skip .temperature
    (by decide)

end ClaimC10

section ClaimC1

instance (o : Option JMap) : Decidable (emptySel o) := by
  unfold emptySel; infer_instance

/-- A session holding one step persisted by skip-as-not-applicable:
`outputs = { _skipped: true }`, `selected_values = null`. -/
def skippedStepSession : Session :=
  ⟨1, 1, .in_progress, [⟨1, .input_shaping, none, some sentinelMap, none, none, none⟩]⟩

/-- Counterexample to C1 as stated: re-saving a previously skipped step
through the wizard (open the session, click the `input_shaping` sidebar
entry, press Save) creates a Step Result whose `outputs` equal the sentinel
`{ _skipped: true }` while its `selected_values` is the same non-empty
mapping — because the wizard seeds the form's result from
`selected_values ?? outputs` and saves that result into both fields. -/
theorem skip_sentinel_counterexample :
    ∃ r ∈ (wstep (wstep (wizardOpen skippedStepSession 2) (.navigate 7))
        .saveAndContinue).session.steps,
      r.outputs = some sentinelMap ∧ ¬ emptySel r.selected_values := by
  decide

/-- C1 (amended): skip-as-not-applicable persists `outputs = { _skipped:
true }` with `selected_values` absent, and the standalone drawer can never
produce sentinel outputs at all (its submitted result keys are the step
type's registered output fields, which never include `_skipped`); the
wizard's save, however, copies the form's result verbatim into both
`outputs` and `selected_values`, so re-saving a previously skipped step
creates a sentinel-outputs step whose `selected_values` equals
`{ _skipped: true }`. In every case a step whose outputs carry the sentinel
is classified and rendered as "Skipped", never "Done" or "Incomplete". -/
theorem skip_sentinel_invariant :
    (∀ s : WizardState, currentStepType s = .input_shaping →
        ∃ r, (wstep s .saveAsSkipped).session.steps = s.session.steps ++ [r] ∧
          r.outputs = some sentinelMap ∧ r.selected_values = none)
  ∧ (∀ (id : ℕ) (st : StepType) (values : FormState),
        resultKeysRegistered st values →
        (drawerOnFinish id st values).outputs ≠ some sentinelMap)
  ∧ (∀ s : WizardState,
        ∃ r, (wstep s .saveAndContinue).session.steps = s.session.steps ++ [r] ∧
          r.outputs = s.form.result ∧ r.selected_values = s.form.result)
  ∧ (∀ r : StepResult, r.outputs = some sentinelMap →
        isSkippedStep r = true ∧ hasRecommendedStep r = false ∧
          isIncompleteStep r = false) := by
  refine ⟨?_, ?_, ?_, ?_⟩
  · intro s hg
    have hidx : s.currentIdx = 7 := getD_input_shaping s.currentIdx hg
    refine ⟨⟨s.nextId, currentStepType s, none, some sentinelMap, none, none, none⟩,
      ?_, rfl, rfl⟩
    simp [wstep, hg, isLast, hidx, WIZARD_STEP_ORDER, navigateTo, markComplete]
  · intro id st values hreg heq
    have houts : (drawerOnFinish id st values).outputs = values.result := rfl
    rw [houts] at heq
    have hmem : ("_skipped", JVal.bool true) ∈ sentinelMap := by
      unfold sentinelMap; exact List.mem_singleton.mpr rfl
    have := hreg sentinelMap heq ("_skipped", JVal.bool true) hmem
    cases st <;> simp [outputKeys] at this
  · intro s
    refine ⟨⟨s.nextId, currentStepType s, s.form.inputs, s.form.result,
      s.form.result, s.form.notes, s.form.confidence⟩, ?_, rfl, rfl⟩
    by_cases h : isLast s
    · have he : wstep s .saveAndContinue = markComplete (saveCurrentStep s) := by
        show (if isLast s then _ else _) = _
        rw [if_pos h]
      rw [he]; rfl
    · have he : wstep s .saveAndContinue =
          navigateTo (saveCurrentStep s) (s.currentIdx + 1) := by
        show (if isLast s then _ else _) = _
        rw [if_neg h]
      rw [he, navigateTo_session]
      rfl
  · intro r hout
    have hskip : isSkippedStep r = true := by
      unfold isSkippedStep
      rw [hout]
      rfl
    refine ⟨hskip, ?_, ?_⟩
    · unfold hasRecommendedStep
      rw [hskip]
      rfl
    · unfold isIncompleteStep
      rw [hskip]
      rfl

/-- Witness for C1 amended: a concrete skip-as-not-applicable on the
`input_shaping` step, a concrete drawer submission, and the Skipped-only
classification of a sentinel step. -/
theorem skip_sentinel_invariant_witness :
    (∃ r, (wstep ⟨7, [], [], emptyForm, ⟨1, 1, .in_progress, []⟩, 0⟩
          .saveAsSkipped).session.steps = [] ++ [r] ∧
        r.outputs = some sentinelMap ∧ r.selected_values = none)
  ∧ (drawerOnFinish 5 .input_shaping emptyForm).outputs ≠ some sentinelMap
  ∧ (isSkippedStep ⟨1, .input_shaping, none, some sentinelMap, none, none, none⟩ = true ∧
      hasRecommendedStep ⟨1, .input_shaping, none, some sentinelMap, none, none, none⟩ = false ∧
      isIncompleteStep ⟨1, .input_shaping, none, some sentinelMap, none, none, none⟩ = false) :=
  ⟨skip_sentinel_invariant.1 ⟨7, [], [], emptyForm, ⟨1, 1, .in_progress, []⟩, 0⟩ rfl,
   skip_sentinel_invariant.2.1 5 .input_shaping emptyForm
     (fun _ h => Option.noConfusion h),
   skip_sentinel_invariant.2.2.2 ⟨1, .input_shaping, none, some sentinelMap, none, none, none⟩
     rfl⟩

end ClaimC1

end Calib
